import Mathlib

/-!
Verification of the runtime multiple-dispatch engine of this repository.

The repository contains two reference implementations of the engine:

* `src/overloader.js` (modelled below with the `ov` name part): a
  `Set`-based registry, the wildcard key tested at its registration
  position, and a value matcher that mutates its inputs (it pushes
  `undefined` into empty argument arrays and rewrites the `type` text of
  optional primitive nodes stored in the parse cache);

* the overloader module inside `src/TaskProcessor.js` (modelled with the
  `tp` name part): a plain-object registry with last-write-wins keys, the
  wildcard `"any"` entry deferred behind every other entry, and a pure
  matcher which however dereferences `typeInfo.elementType.type` before
  distinguishing homogeneous from heterogeneous array nodes.

JavaScript strings are modelled as `List Char`, JavaScript numbers as `ℚ`
(exact decimal arithmetic; none of the verified behaviors depends on IEEE
rounding), runtime values as the inductive `JSValue` (plain data reachable
by the engine: primitives, arrays, records, opaque functions), and thrown
exceptions as `Except JsError`.  Recursive procedures of the source are
embedded as fuel-indexed structural recursions; every theorem below is
either fuel-uniform or evaluated at inputs whose recursion depth is far
below the supplied fuel.  The module-level parse cache is modelled as an
association list (the prototype-chain lookup quirk of a bare `{}` object
is outside the model).
-/

/-- Shorthand: the character list of a string literal. -/
def lc (s : String) : List Char := s.data

/-- The brace characters, named to keep them out of literal text. -/
def braceL : Char := Char.ofNat 123

/-- Closing brace character. -/
def braceR : Char := Char.ofNat 125

/-- JavaScript whitespace (the ASCII part of `\s` together with the
characters removed by `String.prototype.trim`). -/
def isWs (c : Char) : Bool :=
  c = ' ' || c = '\t' || c = '\n' || c = '\r' || c = Char.ofNat 11 || c = Char.ofNat 12

/-- JavaScript line terminators, which the regex metacharacter `.` does not
match. -/
def isLineTerm (c : Char) : Bool :=
  c = '\n' || c = '\r'

/-- `String.prototype.trim`: drop whitespace from both ends. -/
def jsTrim (s : List Char) : List Char :=
  ((s.dropWhile isWs).reverse.dropWhile isWs).reverse

/-- Does `s` start with the segment `p`? -/
def startsSeg : List Char → List Char → Bool
  | [], _ => true
  | _ :: _, [] => false
  | p :: ps, c :: cs => p = c && startsSeg ps cs

/-- Does `p` occur in `s` as a contiguous segment?  This is the semantics
of `String.prototype.includes` and of a literal-word regex test. -/
def containsSeg (p : List Char) : List Char → Bool
  | [] => startsSeg p []
  | c :: cs => startsSeg p (c :: cs) || containsSeg p cs

/-- `String.prototype.split` with a single-character separator: split at
every occurrence, keeping empty segments (`"".split(x) = [""]`). -/
def splitPlain (sym : Char) : List Char → List Char
  → List (List Char)
  | [], cur => [cur.reverse]
  | c :: cs, cur =>
      if c = sym then cur.reverse :: splitPlain sym cs []
      else splitPlain sym cs (c :: cur)

/-- `String.prototype.replace` with a plain-string pattern: replace the
first occurrence of `pat` by `rep` (the identity when `pat` is absent). -/
def replaceFirst (pat rep : List Char) : List Char → List Char
  | [] => []
  | c :: cs =>
      if startsSeg pat (c :: cs) then rep ++ (c :: cs).drop pat.length
      else c :: replaceFirst pat rep cs

/-- Decimal digit test. -/
def isDigitCh (c : Char) : Bool :=
  '0' ≤ c && c ≤ '9'

/-- The regex `/^-?\d+(\.\d+)?$/` used by both parsers for numeric literal
text. -/
def isNumLit (s : List Char) : Bool :=
  let body := match s with
    | '-' :: rest => rest
    | rest => rest
  match body.span isDigitCh with
  | (ip, rest) =>
      ip ≠ [] &&
        (rest = [] ||
          (match rest with
           | '.' :: fp => fp ≠ [] && fp.all isDigitCh
           | _ => false))

/-- The regex `/^['"].*['"]$/`: a leading and a trailing quote character
(in any combination) with no line terminator in between. -/
def isQuotedLit (s : List Char) : Bool :=
  match s with
  | c :: rest =>
      (c = '\'' || c = '"') &&
        (match rest.reverse with
         | d :: mid => (d = '\'' || d = '"') && mid.all (fun x => !isLineTerm x)
         | [] => false)
  | [] => false

/-- Numeric value of a digit run. -/
def digitsToNat : List Char → Nat → Nat
  | [], acc => acc
  | c :: cs, acc => digitsToNat cs (acc * 10 + (c.toNat - '0'.toNat))

/-- `Number(text)` for text matching `/^-?\d+(\.\d+)?$/`, as an exact
rational. -/
def strToNum (s : List Char) : ℚ :=
  let (sign, body) : ℚ × List Char := match s with
    | '-' :: rest => (-1, rest)
    | rest => (1, rest)
  match body.span isDigitCh with
  | (ip, rest) =>
      let ipn : ℚ := (digitsToNat ip 0 : ℚ)
      match rest with
      | '.' :: fp => sign * (ipn + (digitsToNat fp 0 : ℚ) / ((10 : ℚ) ^ fp.length))
      | _ => sign * ipn

/-- Literal values carried by `literal` and `literalArray` type nodes. -/
inductive LitVal where
  | num (q : ℚ)
  | str (s : List Char)
  | bool (b : Bool)
  deriving DecidableEq

/-- The parsed type tree (`TypeNode` of the specification).  The JS code
uses one `array` record with an `isHomogeneous` flag and one `object`
record carrying either `properties` or `indexSignature`; the variants are
separated into constructors here.  Object properties are an ordered list
`name ↦ (type, optional)`. -/
inductive TypeNode where
  | union (types : List TypeNode)
  | arrHomo (elementType : TypeNode)
  | arrHetero (elementTypes : List TypeNode)
  | literalArray (values : List LitVal)
  | object (props : List (List Char × TypeNode × Bool))
  | objectIndex (keyType valueType : TypeNode)
  | literal (value : LitVal)
  | primitive (type : List Char) (optional : Bool)

/-- Runtime values reachable by the engine: the primitives distinguished by
`myTypeof`, arrays, plain records (ordered own enumerable string-keyed
properties), and opaque callables. -/
inductive JSValue where
  | null
  | undef
  | bool (b : Bool)
  | num (q : ℚ)
  | str (s : List Char)
  | arr (elems : List JSValue)
  | obj (fields : List (List Char × JSValue))
  | func

/-- Exceptions surfaced by the TaskProcessor.js variant: the `TypeError`
raised by reading `.type` of an undefined `elementType`, the
no-matching-signature `Error`, and a fuel-exhaustion marker that is a
model artifact (never reached by any input considered in the theorems). -/
inductive JsError where
  | typeError
  | noMatch (msg : List Char)
  | fuelOut
  deriving DecidableEq

/-- Registered implementations are opaque; dispatch only ever decides which
one is invoked. -/
inductive Fn where
  | f1
  | f2
  | f3
  | f4
  | fA
  | fB
  | fC
  deriving DecidableEq

/-- The memoization cache of `parseType.cached`, pattern text ↦ parsed
tree. -/
abbrev Cache := List (List Char × TypeNode)

/-- Association-list lookup (string-keyed property read). -/
def assocGet {α : Type} (k : List Char) : List (List Char × α) → Option α
  | [] => none
  | (k2, v) :: rest => if k2 = k then some v else assocGet k rest

/-- Association-list update: replace the value at the first occurrence of
the key, keeping its position, else append.  This is JS property
assignment on a plain object. -/
def assocSet {α : Type} (k : List Char) (v : α) :
    List (List Char × α) → List (List Char × α)
  | [] => [(k, v)]
  | (k2, w) :: rest =>
      if k2 = k then (k2, v) :: rest else (k2, w) :: assocSet k v rest

example : jsTrim (lc "  a b\n") = lc "a b" := by decide
example : splitPlain '-' (lc "string-number") [] = [lc "string", lc "number"] := by decide
example : splitPlain '|' (lc "") [] = [lc ""] := by decide
example : replaceFirst (lc "?") (lc "|undefined") (lc "string?") = lc "string|undefined" := by decide
example : isNumLit (lc "-12.5") = true := by decide
example : isNumLit (lc "number") = false := by decide
example : isQuotedLit (lc "\x27hi\"") = true := by decide
example : digitsToNat (lc "105") 0 = 105 := by decide
example : containsSeg (lc "any") (lc "canyon") = true := by decide
example : containsSeg (lc "array") (lc "canyon") = false := by decide

/-- The splitter of `overloader.js` (`splitUnionTypes` and
`splitArrayElements` differ only in the separator): a left-to-right scan
tracking quote state and a single bracket depth; brackets and separators
are only interpreted outside quotes; every loop-level separator pushes the
trimmed current segment (even when empty), and the final segment is pushed
only when its trim is nonempty. -/
def ovSplitAux (sym : Char) :
    List Char → List Char → Int → Bool → Char → List (List Char)
  | [], cur, _, _, _ =>
      if (jsTrim cur.reverse).isEmpty then [] else [jsTrim cur.reverse]
  | c :: cs, cur, depth, inQ, qc =>
      if !inQ && (c = '"' || c = '\'') then
        ovSplitAux sym cs (c :: cur) depth true c
      else if inQ && c = qc then
        ovSplitAux sym cs (c :: cur) depth false ' '
      else if !inQ then
        if c = '[' || c = braceL || c = '(' then
          ovSplitAux sym cs (c :: cur) (depth + 1) inQ qc
        else if c = ']' || c = braceR || c = ')' then
          ovSplitAux sym cs (c :: cur) (depth - 1) inQ qc
        else if c = sym && depth = 0 then
          jsTrim cur.reverse :: ovSplitAux sym cs [] depth inQ qc
        else
          ovSplitAux sym cs (c :: cur) depth inQ qc
      else ovSplitAux sym cs (c :: cur) depth inQ qc

/-- `splitUnionTypes` / `splitArrayElements` / `splitObjectProperties` of
`overloader.js`. -/
def ovSplit (sym : Char) (s : List Char) : List (List Char) :=
  ovSplitAux sym s [] 0 false ' '

/-- The `splitAny` splitter of the TaskProcessor.js overloader.  It differs
from the `overloader.js` one: a `canSplit` flag (not the quote state)
guards only the separator, bracket depth is updated even inside quotes,
and the final segment is always pushed. -/
def tpSplitAux (sym : Char) :
    List Char → List Char → Int → Bool → Option Char → List (List Char)
  | [], cur, _, _, _ => [jsTrim cur.reverse]
  | c :: cs, cur, depth, canSplit, qc =>
      let qstate : Bool × Option Char :=
        if c = '"' || c = '\'' then
          match qc with
          | some q => if q = c then (true, none) else (false, some q)
          | none => (false, some c)
        else (canSplit, qc)
      if c = '[' || c = braceL || c = '(' then
        tpSplitAux sym cs (c :: cur) (depth + 1) qstate.1 qstate.2
      else if c = ']' || c = braceR || c = ')' then
        tpSplitAux sym cs (c :: cur) (depth - 1) qstate.1 qstate.2
      else if qstate.1 && c = sym && depth = 0 then
        jsTrim cur.reverse :: tpSplitAux sym cs [] depth qstate.1 qstate.2
      else
        tpSplitAux sym cs (c :: cur) depth qstate.1 qstate.2

/-- `splitAny(SYMBOL)` of the TaskProcessor.js overloader. -/
def tpSplit (sym : Char) (s : List Char) : List (List Char) :=
  tpSplitAux sym s [] 0 true none

/-- `findPropertyColon` (identical in both files): the first `:` outside
quotes with zero `{}`/`()` depth and zero `[]` depth, as an index. -/
def findColonAux : List Char → Nat → Int → Int → Bool → Char → Option Nat
  | [], _, _, _, _, _ => none
  | c :: cs, i, depth, bdepth, inQ, qc =>
      if !inQ && (c = '"' || c = '\'') then
        findColonAux cs (i + 1) depth bdepth true c
      else if inQ && c = qc then
        findColonAux cs (i + 1) depth bdepth false ' '
      else if !inQ then
        if c = braceL || c = '(' then findColonAux cs (i + 1) (depth + 1) bdepth inQ qc
        else if c = braceR || c = ')' then findColonAux cs (i + 1) (depth - 1) bdepth inQ qc
        else if c = '[' then findColonAux cs (i + 1) depth (bdepth + 1) inQ qc
        else if c = ']' then findColonAux cs (i + 1) depth (bdepth - 1) inQ qc
        else if c = ':' && depth = 0 && bdepth = 0 then some i
        else findColonAux cs (i + 1) depth bdepth inQ qc
      else findColonAux cs (i + 1) depth bdepth inQ qc

/-- `findPropertyColon(str)`, `none` standing for the JS result `-1`. -/
def findPropertyColon (s : List Char) : Option Nat :=
  findColonAux s 0 0 0 false ' '

/-- Tail of the index-signature regex: `\s*(.+)$` with `\s*` greedy and
backtracked from width `w` downward; `.` does not match line
terminators. -/
def isg3go (r : List Char) : Nat → Option (List Char)
  | 0 => if r ≠ [] && r.all (fun c => !isLineTerm c) then some r else none
  | w + 1 =>
      if r.drop (w + 1) ≠ [] && (r.drop (w + 1)).all (fun c => !isLineTerm c) then
        some (r.drop (w + 1))
      else isg3go r w

/-- Regex fragment `\s*:\s*(.+)$` after the closing `]`. -/
def isgAfterBracket (r : List Char) : Option (List Char) :=
  if (r.dropWhile isWs).head? = some ':' then
    isg3go (r.dropWhile isWs).tail ((r.dropWhile isWs).tail.takeWhile isWs).length
  else none

/-- Lazy group `(.+?)` before `]`, growing on continuation failure. -/
def isg2go : List Char → List Char → Option (List Char × List Char)
  | [], _ => none
  | c :: r, acc =>
      if isLineTerm c then none
      else if r.head? = some ']' then
        match isgAfterBracket r.tail with
        | some g3 => some ((c :: acc).reverse, g3)
        | none => isg2go r (c :: acc)
      else isg2go r (c :: acc)

/-- Greedy `\s*` before the second lazy group, backtracked from width `w`
downward. -/
def isg2ws (r : List Char) : Nat → Option (List Char × List Char)
  | 0 => isg2go r []
  | w + 1 =>
      match isg2go (r.drop (w + 1)) [] with
      | some res => some res
      | none => isg2ws r w

/-- Lazy group `(.+?)` before the first `:`, growing on continuation
failure. -/
def isg1go : List Char → List Char → Option (List Char × List Char × List Char)
  | [], _ => none
  | c :: r, acc =>
      if isLineTerm c then none
      else if r.head? = some ':' then
        match isg2ws r.tail (r.tail.takeWhile isWs).length with
        | some (g2, g3) => some ((c :: acc).reverse, g2, g3)
        | none => isg1go r (c :: acc)
      else isg1go r (c :: acc)

/-- `content.match(/^\s*\[(.+?):\s*(.+?)\]\s*:\s*(.+)$/)` (identical in
both files), returning the three capture groups.  The backtracking order
of the JS engine is reproduced: leading `\s*` is deterministic before the
literal `[`, both `(.+?)` groups grow lazily, and each inner `\s*` is
greedy with backtracking. -/
def indexSigMatch (content : List Char) :
    Option (List Char × List Char × List Char) :=
  if (content.dropWhile isWs).head? = some '[' then
    isg1go (content.dropWhile isWs).tail []
  else none

example : ovSplit '|' (lc "a|b") = [lc "a", lc "b"] := by decide
example : ovSplit '|' (lc "a|") = [lc "a"] := by decide
example : tpSplit '|' (lc "a|") = [lc "a", lc ""] := by decide
example : ovSplit '|' (lc "[a|b]|c") = [lc "[a|b]", lc "c"] := by decide
example : ovSplit ',' (lc " ") = [] := by decide
example : tpSplit ',' (lc "number,string") = [lc "number", lc "string"] := by decide
example : findPropertyColon (lc "a?:number") = some 2 := by decide
example : findPropertyColon (lc "[k:a]:b") = some 5 := by decide
example :
    indexSigMatch (lc "[key:string]:number") =
      some (lc "key", lc "string", lc "number") := by decide
example :
    indexSigMatch (lc " [k: string|number ]: boolean") =
      some (lc "k", lc "string|number ", lc "boolean") := by decide
example : indexSigMatch (lc "a:number") = none := by decide

/-- Does `s` end with the segment `p` (JS `endsWith`)? -/
def endsSeg (p s : List Char) : Bool :=
  startsSeg p.reverse s.reverse

/-- JS `slice(0, -n)`: drop the last `n` characters (empty when the text is
shorter than `n`). -/
def dropTail {α : Type} (n : Nat) (l : List α) : List α :=
  l.take (l.length - n)

/-- Literal-array element conversion of rule 4: numeric text via `Number`,
quoted text with the outer quotes stripped, anything else kept verbatim
(the last case is unreachable because the branch is guarded by the
literal test on every element). -/
def litValOf (el : List Char) : LitVal :=
  let tr := jsTrim el
  if isNumLit tr then .num (strToNum tr)
  else if isQuotedLit tr then .str (dropTail 1 (tr.drop 1))
  else .str tr

/-- `elements.map(el => parseType(el))` under the fuel monad: the whole
map is `none` exactly when some recursive parse ran out of fuel. -/
def mapMOpt {A B : Type} (f : A → Option B) : List A → Option (List B)
  | [] => some []
  | a :: l =>
      match f a with
      | some b => (mapMOpt f l).map (fun bs => b :: bs)
      | none => none

/-- `isOptional ? key.slice(0, -1) : key` of the object rule. -/
def cleanKey (key : List Char) (opt : Bool) : List Char :=
  if opt then dropTail 1 key else key

/-- The `props.forEach` body of the object rule (identical in both files):
for each fragment with a colon at a positive index, trim the key, read the
trailing `?` as the optional flag, strip it from the stored key, parse the
value type with `pf`, and assign into the properties record (JS property
assignment, so duplicate names keep the first position and the last
value). -/
def buildPropsF (pf : List Char → Option TypeNode) :
    List (List Char) → List (List Char × TypeNode × Bool) →
    Option (List (List Char × TypeNode × Bool))
  | [], acc => some acc
  | p :: ps, acc =>
      match findPropertyColon p with
      | some ci =>
          if 0 < ci then
            let key := jsTrim (p.take ci)
            let ty := jsTrim (p.drop (ci + 1))
            let opt := key.getLast? = some '?'
            match pf ty with
            | some node =>
                buildPropsF pf ps (assocSet (cleanKey key opt) (node, opt) acc)
            | none => none
          else buildPropsF pf ps acc
      | none => buildPropsF pf ps acc

/-- `parseType` of `overloader.js`: try the rules in order on the trimmed
text — union, homogeneous-array suffix, parenthesized group, bracketed
literal/heterogeneous array, object, literal, primitive fallback.  The
`Nat` argument is recursion fuel (a model artifact; `ovParseF_total` below
proves `length + 1` fuel always suffices, so the embedded function is
total exactly as the JS one is). -/
def ovParseF : Nat → List Char → Option TypeNode
  | 0, _ => none
  | n + 1, s =>
      let t := jsTrim s
      if t.contains '|' && (ovSplit '|' t).length > 1 then
        (mapMOpt (ovParseF n) (ovSplit '|' t)).map .union
      else if endsSeg (lc "[]") t then
        let e0 := dropTail 2 t
        let e :=
          if e0.head? = some '(' && e0.getLast? = some ')' then
            dropTail 1 (e0.drop 1)
          else e0
        (ovParseF n e).map .arrHomo
      else if t.head? = some '(' && t.getLast? = some ')' then
        ovParseF n (dropTail 1 (t.drop 1))
      else if t.head? = some '[' && t.getLast? = some ']' then
        let content := dropTail 1 (t.drop 1)
        let elements := ovSplit ',' content
        if elements.all (fun el => isNumLit (jsTrim el) || isQuotedLit (jsTrim el)) then
          some (.literalArray (elements.map litValOf))
        else
          (mapMOpt (ovParseF n) elements).map .arrHetero
      else if t.head? = some braceL && t.getLast? = some braceR then
        let content := dropTail 1 (t.drop 1)
        match indexSigMatch content with
        | some (_, g2, g3) =>
            match ovParseF n (jsTrim g2), ovParseF n (jsTrim g3) with
            | some kt, some vt => some (.objectIndex kt vt)
            | _, _ => none
        | none =>
            (buildPropsF (ovParseF n) (ovSplit ',' content) []).map .object
      else if isNumLit t then some (.literal (.num (strToNum t)))
      else if isQuotedLit t then some (.literal (.str (dropTail 1 (t.drop 1))))
      else if t = lc "true" || t = lc "false" then
        some (.literal (.bool (t = lc "true")))
      else some (.primitive t (t.getLast? = some '?'))

/-- Total wrapper for the `overloader.js` parser (the default is never
used: see `ovParseF_total`). -/
def ovParse (s : List Char) : TypeNode :=
  (ovParseF (s.length + 1) s).getD (.primitive (jsTrim s) ((jsTrim s).getLast? = some '?'))

/-- `parseType` of the TaskProcessor.js overloader.  Differences from
`overloader.js`: it uses `splitAny`, it has no standalone parenthesized
rule, and an empty element text before `[]` falls back to `"array"`
(`typeStr.slice(0, -2) || "array"`). -/
def tpParseF : Nat → List Char → Option TypeNode
  | 0, _ => none
  | n + 1, s =>
      let t := jsTrim s
      if t.contains '|' && (tpSplit '|' t).length > 1 then
        (mapMOpt (tpParseF n) (tpSplit '|' t)).map .union
      else if endsSeg (lc "[]") t then
        let e0 := dropTail 2 t
        let e1 := if e0.isEmpty then lc "array" else e0
        let e :=
          if e1.head? = some '(' && e1.getLast? = some ')' then
            dropTail 1 (e1.drop 1)
          else e1
        (tpParseF n e).map .arrHomo
      else if t.head? = some '[' && t.getLast? = some ']' then
        let content := dropTail 1 (t.drop 1)
        let elements := tpSplit ',' content
        if elements.all (fun el => isNumLit (jsTrim el) || isQuotedLit (jsTrim el)) then
          some (.literalArray (elements.map litValOf))
        else
          (mapMOpt (tpParseF n) elements).map .arrHetero
      else if t.head? = some braceL && t.getLast? = some braceR then
        let content := dropTail 1 (t.drop 1)
        match indexSigMatch content with
        | some (_, g2, g3) =>
            match tpParseF n (jsTrim g2), tpParseF n (jsTrim g3) with
            | some kt, some vt => some (.objectIndex kt vt)
            | _, _ => none
        | none =>
            (buildPropsF (tpParseF n) (tpSplit ',' content) []).map .object
      else if isNumLit t then some (.literal (.num (strToNum t)))
      else if isQuotedLit t then some (.literal (.str (dropTail 1 (t.drop 1))))
      else if t = lc "true" || t = lc "false" then
        some (.literal (.bool (t = lc "true")))
      else some (.primitive t (t.getLast? = some '?'))

/-- Total wrapper for the TaskProcessor.js parser. -/
def tpParse (s : List Char) : TypeNode :=
  (tpParseF (s.length + 1) s).getD (.primitive (jsTrim s) ((jsTrim s).getLast? = some '?'))

/-- `parseType.cached` of `overloader.js`: return the cache hit, else
parse and insert. -/
def ovCachedParse (c : Cache) (p : List Char) : TypeNode × Cache :=
  match assocGet p c with
  | some t => (t, c)
  | none => (ovParse p, assocSet p (ovParse p) c)

example : ovParse (lc "number") = .primitive (lc "number") false := by rfl
example : ovParse (lc "string?") = .primitive (lc "string?") true := by rfl
example :
    ovParse (lc "string|number") =
      .union [.primitive (lc "string") false, .primitive (lc "number") false] := by rfl
example : ovParse (lc "any[]") = .arrHomo (.primitive (lc "any") false) := by rfl
example :
    ovParse (lc "[number,string]") =
      .arrHetero [.primitive (lc "number") false, .primitive (lc "string") false] := by rfl
example :
    ovParse (lc "[1,2]") =
      .literalArray [.num (strToNum (lc "1")), .num (strToNum (lc "2"))] := by rfl
example :
    ovParse (lc "\x7ba?:number\x7d") =
      .object [(lc "a", .primitive (lc "number") false, true)] := by rfl
example :
    ovParse (lc "\x7b[key:string]:number\x7d") =
      .objectIndex (.primitive (lc "string") false) (.primitive (lc "number") false) := by rfl
example : tpParse (lc "[]") = .arrHomo (.primitive (lc "array") false) := by rfl
example : ovParse (lc "[]") = .arrHomo (.primitive (lc "") false) := by rfl
example : tpParse (lc "canyon[]") = .arrHomo (.primitive (lc "canyon") false) := by rfl
example : tpParse (lc "(string)") = .primitive (lc "(string)") false := by rfl
example : ovParse (lc "(string)") = .primitive (lc "string") false := by rfl

/-- `myTypeof` of `overloader.js`: a refined runtime-kind string. -/
def myTypeofOV : JSValue → List Char
  | .null => lc "null"
  | .undef => lc "undefined"
  | .arr _ => lc "[]"
  | .func => lc "Function"
  | .obj _ => lc "\x7b\x7d"
  | .bool _ => lc "boolean"
  | .num _ => lc "number"
  | .str _ => lc "string"

/-- `myTypeof` of the TaskProcessor.js overloader (arrays and records are
named `array` and `object` there). -/
def myTypeofTP : JSValue → List Char
  | .null => lc "null"
  | .undef => lc "undefined"
  | .arr _ => lc "array"
  | .func => lc "Function"
  | .obj _ => lc "object"
  | .bool _ => lc "boolean"
  | .num _ => lc "number"
  | .str _ => lc "string"

/-- JS strict equality `===` between a runtime value and a stored literal
value. -/
def jsEqLit (v : JSValue) (lv : LitVal) : Bool :=
  match v, lv with
  | .num q, .num q2 => q = q2
  | .str s, .str s2 => s = s2
  | .bool b, .bool b2 => b = b2
  | _, _ => false

/-- The JS expression `typeInfo.elementType.type` coerced by `RegExp.test`:
only `primitive` nodes carry a `type` field, every other node kind yields
the string `"undefined"` (for a heterogeneous `array` node the
`elementType` field itself is `undefined`, making the same read throw
instead — that path is modelled where it occurs). -/
def typeFieldStr : TypeNode → List Char
  | .primitive ty _ => ty
  | _ => lc "undefined"

/-- The regex test `/array|any/.test(s)`: substring containment of either
word. -/
def arrayAnyTest (s : List Char) : Bool :=
  containsSeg (lc "array") s || containsSeg (lc "any") s

/-- The rewritten `type` text of a primitive node: when the node is
optional, the first `?` is replaced by `|undefined` and the result is
trimmed (both variants compute this; `overloader.js` assigns it back into
the node). -/
def primNewType (ty : List Char) (opt : Bool) : List Char :=
  if opt then jsTrim (replaceFirst (lc "?") (lc "|undefined") ty) else ty

/-- The primitive-rule body shared by both variants: split the (possibly
rewritten) name on `|` and accept when the set contains `any` or the
runtime kind. -/
def primMatches (actualType ty2 : List Char) : Bool :=
  (splitPlain '|' ty2 []).contains (lc "any") ||
    (splitPlain '|' ty2 []).contains actualType

/-- Canonical (integer-index) property keys, which JS objects enumerate
first, in ascending numeric order. -/
def isIndexKey (k : List Char) : Bool :=
  k ≠ [] && k.all isDigitCh && (k = lc "0" || k.head? ≠ some '0') &&
    digitsToNat k 0 < 4294967295

/-- Insertion into a numerically sorted run of index-keyed entries. -/
def insertByVal {α : Type} (p : List Char × α) :
    List (List Char × α) → List (List Char × α)
  | [] => [p]
  | q :: rest =>
      if digitsToNat p.1 0 < digitsToNat q.1 0 then p :: q :: rest
      else q :: insertByVal p rest

/-- Sort index-keyed entries by numeric value (insertion sort; keys of a
JS object are unique so stability is irrelevant). -/
def sortIndexKeys {α : Type} : List (List Char × α) → List (List Char × α)
  | [] => []
  | p :: rest => insertByVal p (sortIndexKeys rest)

/-- JS own-property enumeration order (`Object.entries` / `Object.keys` /
`for..in` on a plain object): canonical integer-index keys first in
ascending numeric order, then the remaining keys in insertion order. -/
def entriesOrder {α : Type} (l : List (List Char × α)) : List (List Char × α) :=
  sortIndexKeys (l.filter (fun p => isIndexKey p.1)) ++
    l.filter (fun p => !isIndexKey p.1)

/-- `types.some(t => matchesTypeRecursive(actual, t))` of the
TaskProcessor.js matcher, with exception propagation. -/
def tpSomeF (mf : JSValue → TypeNode → Except JsError Bool) (v : JSValue) :
    List TypeNode → Except JsError Bool
  | [] => .ok false
  | m :: rest => do
      let b ← mf v m
      if b then .ok true else tpSomeF mf v rest

/-- `actual.every(item => matchesTypeRecursive(item, elementType))`. -/
def tpAllElems (mf : JSValue → TypeNode → Except JsError Bool) (et : TypeNode) :
    List JSValue → Except JsError Bool
  | [] => .ok true
  | e :: rest => do
      let b ← mf e et
      if b then tpAllElems mf et rest else .ok false

/-- `actual.every((item, i) => matchesTypeRecursive(item,
elementTypes[i]))` (the caller guarantees equal lengths). -/
def tpAll2 (mf : JSValue → TypeNode → Except JsError Bool) :
    List JSValue → List TypeNode → Except JsError Bool
  | [], _ => .ok true
  | _, [] => .ok true
  | e :: es, t :: ts => do
      let b ← mf e t
      if b then tpAll2 mf es ts else .ok false

/-- The index-signature loop: both the key match and the value match are
computed before the conjunction (the source binds both `const`s first). -/
def tpEntries (mf : JSValue → TypeNode → Except JsError Bool)
    (kt vt : TypeNode) : List (List Char × JSValue) → Except JsError Bool
  | [] => .ok true
  | (k, fv) :: rest => do
      let kb ← mf (.str k) kt
      let vb ← mf fv vt
      if kb && vb then tpEntries mf kt vt rest else .ok false

/-- The declared-properties loop: optional-and-absent passes, otherwise the
property must be present and match. -/
def tpProps (mf : JSValue → TypeNode → Except JsError Bool)
    (fields : List (List Char × JSValue)) :
    List (List Char × TypeNode × Bool) → Except JsError Bool
  | [] => .ok true
  | (name, pt, opt) :: rest =>
      match assocGet name fields with
      | none => if opt then tpProps mf fields rest else .ok false
      | some fv => do
          let b ← mf fv pt
          if b then tpProps mf fields rest else .ok false

/-- `matchesTypeRecursive` of the TaskProcessor.js overloader.  The `Nat`
argument is recursion fuel (the recursion of the source is on smaller
values/nodes; all theorems below are fuel-uniform or evaluated far below
the fuel supplied by `tpMatchNode`).  For an empty array the source
evaluates `typeInfo.elementType.type` before distinguishing homogeneous
from heterogeneous nodes; on a heterogeneous node `elementType` is
`undefined` and the read throws `TypeError`. -/
def tpMatchNodeF : Nat → JSValue → TypeNode → Except JsError Bool
  | 0, _, _ => .error .fuelOut
  | n + 1, v, t =>
      match t with
      | .union ms => tpSomeF (tpMatchNodeF n) v ms
      | .arrHomo et =>
          match v with
          | .arr xs =>
              if xs.isEmpty && !arrayAnyTest (typeFieldStr et) then .ok false
              else tpAllElems (tpMatchNodeF n) et xs
          | _ => .ok false
      | .arrHetero ets =>
          match v with
          | .arr xs =>
              if xs.isEmpty then .error .typeError
              else if xs.length ≠ ets.length then .ok false
              else tpAll2 (tpMatchNodeF n) xs ets
          | _ => .ok false
      | .literalArray vals =>
          match v with
          | .arr xs =>
              .ok (xs.length = vals.length &&
                (xs.zip vals).all (fun p => jsEqLit p.1 p.2))
          | _ => .ok false
      | .literal lv => .ok (jsEqLit v lv)
      | .objectIndex kt vt =>
          match v with
          | .obj fields => tpEntries (tpMatchNodeF n) kt vt (entriesOrder fields)
          | _ => .ok false
      | .object props =>
          match v with
          | .obj fields => tpProps (tpMatchNodeF n) fields (entriesOrder props)
          | _ => .ok false
      | .primitive ty opt => .ok (primMatches (myTypeofTP v) (primNewType ty opt))

/-- `matchesType` of the TaskProcessor.js overloader.  Every recursive call
of the matcher descends strictly into the type node, and a node parsed
from `p` nests at most `p.length + 1` levels, so fuel `p.length + 2`
always suffices.  The matcher is pure there, so the process-wide
memoization cache is transparent for results and is omitted from this
wrapper (parsing is deterministic; see `tpCachedParse_idem` below). -/
def tpMatchesType (v : JSValue) (p : List Char) : Except JsError Bool :=
  tpMatchNodeF (p.length + 2) v (tpParse p)

/-- `parseType.cached` of the TaskProcessor.js overloader. -/
def tpCachedParse (c : Cache) (p : List Char) : TypeNode × Cache :=
  match assocGet p c with
  | some t => (t, c)
  | none => (tpParse p, assocSet p (tpParse p) c)

/-- `requiredCount`: patterns whose text does not contain `?` anywhere. -/
def requiredCount (pats : List (List Char)) : Nat :=
  (pats.filter (fun p => !p.contains '?')).length

/-- The per-position loop of `matchesSignature` (TaskProcessor.js): stop at
the first non-match, propagate exceptions. -/
def tpSigLoop : List (JSValue × List Char) → Except JsError Bool
  | [] => .ok true
  | (a, p) :: rest =>
      match tpMatchesType a p with
      | .error e => .error e
      | .ok b => if b then tpSigLoop rest else .ok false

/-- `matchesSignature` of the TaskProcessor.js overloader (the
`console.log` diagnostics of the arity rejections are ignored). -/
def tpMatchesSignature (args : List JSValue) (pats : List (List Char)) :
    Except JsError Bool :=
  if args.length < requiredCount pats then .ok false
  else if args.length > pats.length then .ok false
  else tpSigLoop (args.zip pats)

example : tpMatchesType (.num 1) (lc "number") = .ok true := by rfl
example : tpMatchesType (.str (lc "x")) (lc "number") = .ok false := by rfl
example : tpMatchesType (.arr []) (lc "string[]") = .ok false := by rfl
example : tpMatchesType (.arr []) (lc "any[]") = .ok true := by rfl
example : tpMatchesType (.arr []) (lc "canyon[]") = .ok true := by rfl
example : tpMatchesType (.arr []) (lc "[number,string]") = .error .typeError := by rfl
example :
    tpMatchesType (.arr [.num 1, .str (lc "a")]) (lc "[number,string]") = .ok true := by rfl
example :
    tpMatchesType (.arr [.num 1, .str (lc "a"), .num 2]) (lc "[number,string]") =
      .ok false := by rfl
example : tpMatchesType .null (lc "any") = .ok true := by rfl
example :
    tpMatchesType (.obj [(lc "a", .num 1)]) (lc "\x7ba:number,b?:string\x7d") =
      .ok true := by rfl
example :
    tpMatchesType (.obj []) (lc "\x7ba:number,b?:string\x7d") = .ok false := by rfl
example : tpMatchesType .undef (lc "string?") = .ok true := by rfl
example : tpMatchesSignature [.num 5] [lc "number", lc "number?"] = .ok true := by rfl
example : tpMatchesSignature [] [lc "number", lc "number?"] = .ok false := by rfl

/-- `types.some(...)` of the `overloader.js` matcher with state threading:
`mf` returns (result, updated value, updated node); tested members may
mutate the value before later members see it, and members after the first
success are untouched. -/
def ovSome (mf : JSValue → TypeNode → Bool × JSValue × TypeNode) :
    JSValue → List TypeNode → Bool × JSValue × List TypeNode
  | v, [] => (false, v, [])
  | v, m :: rest =>
      match mf v m with
      | (true, v2, m2) => (true, v2, m2 :: rest)
      | (false, v2, m2) =>
          match ovSome mf v2 rest with
          | (b, v3, rest2) => (b, v3, m2 :: rest2)

/-- Homogeneous-array element loop of `overloader.js`: each element is
matched against the current (possibly rewritten) element node; the loop
stops at the first failure, leaving later elements unvisited. -/
def ovElems (mf : JSValue → TypeNode → Bool × JSValue × TypeNode) :
    TypeNode → List JSValue → Bool × List JSValue × TypeNode
  | et, [] => (true, [], et)
  | et, e :: rest =>
      match mf e et with
      | (true, e2, et2) =>
          match ovElems mf et2 rest with
          | (b, rest2, et3) => (b, e2 :: rest2, et3)
      | (false, e2, et2) => (false, e2 :: rest, et2)

/-- Heterogeneous-array positional loop of `overloader.js`. -/
def ovElems2 (mf : JSValue → TypeNode → Bool × JSValue × TypeNode) :
    List JSValue → List TypeNode → Bool × List JSValue × List TypeNode
  | [], ts => (true, [], ts)
  | es, [] => (true, es, [])
  | e :: es, t :: ts =>
      match mf e t with
      | (true, e2, t2) =>
          match ovElems2 mf es ts with
          | (b, es2, ts2) => (b, e2 :: es2, t2 :: ts2)
      | (false, e2, t2) => (false, e2 :: es, t2 :: ts)

/-- Index-signature loop of `overloader.js` (both matches are computed
before the conjunction).  The record is rebuilt in enumeration order,
which is observationally the order every later enumeration uses. -/
def ovEntries (mf : JSValue → TypeNode → Bool × JSValue × TypeNode) :
    TypeNode → TypeNode → List (List Char × JSValue) →
    Bool × List (List Char × JSValue) × TypeNode × TypeNode
  | kt, vt, [] => (true, [], kt, vt)
  | kt, vt, (k, fv) :: rest =>
      match mf (.str k) kt with
      | (kb, _, kt2) =>
          match mf fv vt with
          | (vb, fv2, vt2) =>
              if kb && vb then
                match ovEntries mf kt2 vt2 rest with
                | (b, rest2, kt3, vt3) => (b, (k, fv2) :: rest2, kt3, vt3)
              else (false, (k, fv2) :: rest, kt2, vt2)

/-- Declared-properties loop of `overloader.js`, threading field and
property-node updates. -/
def ovProps (mf : JSValue → TypeNode → Bool × JSValue × TypeNode) :
    List (List Char × JSValue) → List (List Char × TypeNode × Bool) →
    Bool × List (List Char × JSValue) × List (List Char × TypeNode × Bool)
  | fields, [] => (true, fields, [])
  | fields, (name, pt, opt) :: rest =>
      match assocGet name fields with
      | none =>
          if opt then
            match ovProps mf fields rest with
            | (b, f2, rest2) => (b, f2, (name, pt, opt) :: rest2)
          else (false, fields, (name, pt, opt) :: rest)
      | some fv =>
          match mf fv pt with
          | (b, fv2, pt2) =>
              if b then
                match ovProps mf (assocSet name fv2 fields) rest with
                | (b2, f3, rest2) => (b2, f3, (name, pt2, opt) :: rest2)
              else (false, assocSet name fv2 fields, (name, pt2, opt) :: rest)

/-- `matchesTypeRecursive` of `overloader.js`, returned as
(result, value after matching, node after matching): the source mutates an
empty array argument by pushing `undefined` before the element loop, and
mutates an optional primitive node by rewriting its `type` text in place
(the node lives in the parse cache).  Fuel as in `tpMatchesType`; a fuel
of node depth + 1 suffices because every recursive call descends into the
node and the mutations never change a node's shape. -/
def ovMatchNodeF : Nat → JSValue → TypeNode → Bool × JSValue × TypeNode
  | 0, v, t => (false, v, t)
  | n + 1, v, t =>
      match t with
      | .union ms =>
          match ovSome (ovMatchNodeF n) v ms with
          | (b, v2, ms2) => (b, v2, .union ms2)
      | .arrHomo et =>
          match v with
          | .arr xs =>
              let xs1 := if xs.isEmpty then [JSValue.undef] else xs
              match ovElems (ovMatchNodeF n) et xs1 with
              | (b, xs2, et2) => (b, .arr xs2, .arrHomo et2)
          | _ => (false, v, t)
      | .arrHetero ets =>
          match v with
          | .arr xs =>
              if xs.length ≠ ets.length then (false, v, t)
              else
                match ovElems2 (ovMatchNodeF n) xs ets with
                | (b, xs2, ets2) => (b, .arr xs2, .arrHetero ets2)
          | _ => (false, v, t)
      | .literalArray vals =>
          match v with
          | .arr xs =>
              (xs.length = vals.length &&
                (xs.zip vals).all (fun p => jsEqLit p.1 p.2), v, t)
          | _ => (false, v, t)
      | .literal lv => (jsEqLit v lv, v, t)
      | .objectIndex kt vt =>
          match v with
          | .obj fields =>
              match ovEntries (ovMatchNodeF n) kt vt (entriesOrder fields) with
              | (b, fields2, kt2, vt2) => (b, .obj fields2, .objectIndex kt2 vt2)
          | _ => (false, v, t)
      | .object props =>
          match v with
          | .obj fields =>
              match ovProps (ovMatchNodeF n) fields (entriesOrder props) with
              | (b, fields2, props2) => (b, .obj fields2, .object props2)
          | _ => (false, v, t)
      | .primitive ty opt =>
          (primMatches (myTypeofOV v) (primNewType ty opt), v,
            .primitive (primNewType ty opt) opt)

/-- `matchesType` of `overloader.js`: look up or parse the pattern, run the
matcher, and store the (possibly mutated) node back at the pattern key —
in the source the cached node is mutated in place through aliasing. -/
def ovMatchesType (c : Cache) (v : JSValue) (p : List Char) :
    Bool × JSValue × Cache :=
  match ovCachedParse c p with
  | (node, c1) =>
      match ovMatchNodeF (p.length + 2) v node with
      | (b, v2, node2) => (b, v2, assocSet p node2 c1)

/-- The per-position loop of `matchesSignature` (`overloader.js`),
threading argument mutation and the cache; it stops at the first
non-match. -/
def ovSigLoop : Cache → List JSValue → List (List Char) →
    Bool × List JSValue × Cache
  | c, [], _ => (true, [], c)
  | c, args, [] => (true, args, c)
  | c, a :: as, p :: ps =>
      match ovMatchesType c a p with
      | (true, a2, c2) =>
          match ovSigLoop c2 as ps with
          | (b, as2, c3) => (b, a2 :: as2, c3)
      | (false, a2, c2) => (false, a2 :: as, c2)

/-- `matchesSignature` of `overloader.js`: the arity rejections happen
before any per-argument matching (so they mutate nothing). -/
def ovMatchesSignature (c : Cache) (args : List JSValue)
    (pats : List (List Char)) : Bool × List JSValue × Cache :=
  if args.length < requiredCount pats then (false, args, c)
  else if args.length > pats.length then (false, args, c)
  else ovSigLoop c args pats

example :
    ovMatchesType [] (.arr []) (lc "string[]") =
      (false, .arr [.undef],
        [(lc "string[]", .arrHomo (.primitive (lc "string") false))]) := by rfl
example : (ovMatchesType [] (.arr []) (lc "any[]")).1 = true := by rfl
example : (ovMatchesType [] (.arr []) (lc "undefined[]")).1 = true := by rfl
example : (ovMatchesType [] .undef (lc "string?")).2.2 =
    [(lc "string?", .primitive (lc "string|undefined") true)] := by rfl
example : (ovMatchesType [] .undef (lc "string?")).1 = true := by rfl

/-- Digit characters of a natural number (base 10). -/
def natToChars (n : Nat) : List Char :=
  Nat.toDigits 10 n

/-- Fractional digits of `rem / den` by long division, cut at a fixed
depth; every number the engine ever serializes comes from finite decimal
text, whose expansion terminates well before the cut. -/
def fracDigits (den : Nat) : Nat → Nat → List Char
  | _, 0 => []
  | 0, _ => []
  | rem, fuel + 1 =>
      Char.ofNat ('0'.toNat + rem * 10 / den) :: fracDigits den (rem * 10 % den) fuel

/-- JS number-to-string for the values reachable here (integers exact,
finite decimals expanded).  IEEE shortest-round-trip printing is outside
the model and outside every claim. -/
def numToChars (q : ℚ) : List Char :=
  let sign : List Char := if q < 0 then ['-'] else []
  let ip := q.num.natAbs / q.den
  let remN := q.num.natAbs % q.den
  if remN = 0 then sign ++ natToChars ip
  else sign ++ natToChars ip ++ '.' :: fracDigits q.den remN 64

/-- JSON string escaping (the escapes relevant to the engine's data). -/
def escChar (c : Char) : List Char :=
  if c = '"' then ['\\', '"']
  else if c = '\\' then ['\\', '\\']
  else if c = '\n' then ['\\', 'n']
  else if c = '\r' then ['\\', 'r']
  else if c = '\t' then ['\\', 't']
  else [c]

/-- JSON string serialization. -/
def strToJson (s : List Char) : List Char :=
  '"' :: s.foldr (fun c acc => escChar c ++ acc) ['"']

/-- Comma-join of serialized fragments. -/
def joinComma : List (List Char) → List Char
  | [] => []
  | [x] => x
  | x :: xs => x ++ ',' :: joinComma xs

/-- `JSON.stringify`: `undefined` and functions serialize to `null` inside
arrays and are omitted as object properties; the engine only ever
serializes its argument array, so the top-level `undefined` result of
stringifying a bare `undefined` is returned as the empty text. -/
def jsonStringifyF : Nat → JSValue → List Char
  | 0, _ => []
  | n + 1, v =>
      match v with
      | .null => lc "null"
      | .undef => []
      | .func => []
      | .bool b => if b then lc "true" else lc "false"
      | .num q => numToChars q
      | .str s => strToJson s
      | .arr xs =>
          '[' :: joinComma (xs.map (fun x =>
            match x with
            | .undef => lc "null"
            | .func => lc "null"
            | _ => jsonStringifyF n x)) ++ [']']
      | .obj fields =>
          braceL :: joinComma (((entriesOrder fields).filter (fun f =>
            match f.2 with
            | .undef => false
            | .func => false
            | _ => true)).map (fun f =>
              strToJson f.1 ++ ':' :: jsonStringifyF n f.2)) ++ [braceR]

/-- `JSON.stringify(args)` for an argument array whose nesting depth is
below `64` (every input in this development is). -/
def jsonStringify (v : JSValue) : List Char :=
  jsonStringifyF 64 v

/-- The message of the no-matching-signature `Error` (identical template
in both files). -/
def noMatchMsg (args : List JSValue) : List Char :=
  lc "没有找到匹配签名 \x27" ++ jsonStringify (.arr args) ++ lc "\x27 的函数实现"

/-- A dispatch registry: ordered (signature key, implementation) entries.
For the TaskProcessor.js variant this models the plain object
`signatures` (updates via `assocSet`, enumeration via `entriesOrder`);
for `overloader.js` it models the insertion-ordered `Set` of
`[key, fn]` pairs (updates by appending). -/
abbrev Registry := List (List Char × Fn)

/-- Whitespace stripping of `add` (TaskProcessor.js):
`txt.replace(/[\r\n\s]/g, "")`. -/
def stripWsAll (p : List Char) : List Char :=
  p.filter (fun c => !isWs c)

/-- `Array.prototype.join("-")`. -/
def joinDash : List (List Char) → List Char
  | [] => []
  | [p] => p
  | p :: ps => p ++ '-' :: joinDash ps

/-- `add` of the TaskProcessor.js overloader: strip whitespace from each
pattern, join with `-`, and assign into the signatures object
(overwriting the entry at an identical key, which keeps its original
position). -/
def tpAdd (r : Registry) (pats : List (List Char)) (f : Fn) : Registry :=
  assocSet (joinDash (pats.map stripWsAll)) f r

/-- The entry loop of the TaskProcessor.js `overloade` function over the
non-wildcard entries, with exception propagation. -/
def tpCallLoop : List (List Char × Fn) → List JSValue →
    Except JsError (Option Fn)
  | [], _ => .ok none
  | (k, f) :: rest, args => do
      let b ← tpMatchesSignature args (splitPlain '-' k [])
      if b then .ok (some f) else tpCallLoop rest args

/-- `overloade(...args)` of the TaskProcessor.js overloader: destructure
the `"any"` entry away, iterate the remaining entries in object
enumeration order, and fall back to the `"any"` implementation only after
every other entry failed; with no fallback, throw the
no-matching-signature error.  The result records which implementation is
invoked and with which arguments. -/
def tpCall (r : Registry) (args : List JSValue) :
    Except JsError (Fn × List JSValue) := do
  match ← tpCallLoop (entriesOrder (r.filter (fun e => e.1 ≠ lc "any"))) args with
  | some f => .ok (f, args)
  | none =>
      match assocGet (lc "any") r with
      | some f => .ok (f, args)
      | none => .error (.noMatch (noMatchMsg args))

/-- `add` of `overloader.js`: `signatures.add([key, fn])` on a `Set` of
fresh pairs — every registration appends, duplicates included; patterns
are joined raw (no whitespace stripping). -/
def ovAdd (r : Registry) (pats : List (List Char)) (f : Fn) : Registry :=
  r ++ [(joinDash pats, f)]

/-- The entry loop of the `overloader.js` `overloade` function: entries in
insertion order; the test is `signature === "any" || matchesSignature(...)`,
so a wildcard entry is taken at its own position; argument mutation and
the parse cache thread through failed attempts. -/
def ovCallLoop : Cache → List (List Char × Fn) → List JSValue →
    Option (Fn × List JSValue) × List JSValue × Cache
  | c, [], args => (none, args, c)
  | c, (k, f) :: rest, args =>
      if k = lc "any" then (some (f, args), args, c)
      else
        match ovMatchesSignature c args (splitPlain '-' k []) with
        | (true, args2, c2) => (some (f, args2), args2, c2)
        | (false, args2, c2) => ovCallLoop c2 rest args2

/-- `overloade(...args)` of `overloader.js`.  The thrown error carries the
serialized argument list as left by the failed matching pass (the pass
may have mutated it).  A fresh cache models the module cache at first
use; parsing is deterministic, so a pre-populated cache yields the same
results. -/
def ovCall (r : Registry) (args : List JSValue) :
    Except (List Char) (Fn × List JSValue) :=
  match ovCallLoop [] r args with
  | (some res, _, _) => .ok res
  | (none, argsF, _) => .error (noMatchMsg argsF)

example :
    tpCall (tpAdd (tpAdd (tpAdd [] [lc "number", lc "number"] .f1)
        [lc "string", lc "number"] .f2) [lc "any"] .f3)
      [.num 1, .num 2] = .ok (.f1, [.num 1, .num 2]) := by rfl
example :
    tpCall (tpAdd (tpAdd (tpAdd [] [lc "any"] .f3)
        [lc "number", lc "number"] .f1) [lc "string", lc "number"] .f2)
      [.num 1, .num 2] = .ok (.f1, [.num 1, .num 2]) := by rfl
example :
    ovCall (ovAdd (ovAdd (ovAdd [] [lc "any"] .f3)
        [lc "number", lc "number"] .f1) [lc "string", lc "number"] .f2)
      [.num 1, .num 2] = .ok (.f3, [.num 1, .num 2]) := by rfl
example :
    tpCall (tpAdd (tpAdd [] [lc "number"] .f1) [lc "number"] .f4)
      [.num 5] = .ok (.f4, [.num 5]) := by rfl
example :
    ovCall (ovAdd (ovAdd [] [lc "number"] .f1) [lc "number"] .f4)
      [.num 5] = .ok (.f1, [.num 5]) := by rfl
example :
    tpCall [(lc "[number,string]", .fA), (lc "any", .fB)] [.arr []] =
      .error .typeError := by rfl
example :
    tpCall (tpAdd [] [lc "\x7ba?:number\x7d"] .fC) [] =
      .ok (.fC, []) := by rfl

/-- No structural rule (union, array suffix, parenthesized group, bracketed
array, object, literal) accepts the trimmed text, so `parseType` reaches
the final primitive fallback. -/
def ovNoStructRule (s : List Char) : Bool :=
  let t := jsTrim s
  !(t.contains '|' && decide ((ovSplit '|' t).length > 1)) &&
  !(endsSeg (lc "[]") t) &&
  !(decide (t.head? = some '(') && decide (t.getLast? = some ')')) &&
  !(decide (t.head? = some '[') && decide (t.getLast? = some ']')) &&
  !(decide (t.head? = some braceL) && decide (t.getLast? = some braceR)) &&
  !(isNumLit t) && !(isQuotedLit t) &&
  !(decide (t = lc "true") || decide (t = lc "false"))

/-- A sequence of `add` registrations applied to a fresh TaskProcessor.js
dispatcher. -/
def applyAdds (l : List (List (List Char) × Fn)) : Registry :=
  l.foldl (fun acc s => tpAdd acc s.1 s.2) []

/-- The three registrations of the dispatch-order scenario:
`add("number","number",f1)`, `add("string","number",f2)`,
`add("any",f3)`. -/
def c1Steps : List (List (List Char) × Fn) :=
  [([lc "number", lc "number"], .f1),
   ([lc "string", lc "number"], .f2),
   ([lc "any"], .f3)]

theorem dropWhile_length_le {α : Type} (f : α → Bool) :
    ∀ l : List α, (l.dropWhile f).length ≤ l.length := by
  intro l
  induction l with
  | nil => simp
  | cons a l ih =>
      rw [List.dropWhile_cons]
      split
      · simp
        omega
      · simp

theorem jsTrim_length_le (s : List Char) : (jsTrim s).length ≤ s.length := by
  unfold jsTrim
  calc ((s.dropWhile isWs).reverse.dropWhile isWs).reverse.length
      = ((s.dropWhile isWs).reverse.dropWhile isWs).length := by
        exact List.length_reverse _
    _ ≤ (s.dropWhile isWs).reverse.length := dropWhile_length_le _ _
    _ = (s.dropWhile isWs).length := List.length_reverse _
    _ ≤ s.length := dropWhile_length_le _ _

theorem dropTail_length (n : Nat) (l : List Char) :
    (dropTail n l).length = l.length - n := by
  simp [dropTail]

theorem ovSplitAux_length_le (sym : Char) :
    ∀ (cs cur : List Char) (d : Int) (q : Bool) (qc : Char),
      ∀ p ∈ ovSplitAux sym cs cur d q qc, p.length ≤ cur.length + cs.length := by
  intro cs
  induction cs with
  | nil =>
      intro cur d q qc p hp
      unfold ovSplitAux at hp
      split at hp
      · simp at hp
      · simp at hp
        subst hp
        calc (jsTrim cur.reverse).length ≤ cur.reverse.length := jsTrim_length_le _
          _ = cur.length := List.length_reverse _
          _ ≤ cur.length + 0 := by omega
  | cons c cs ih =>
      intro cur d q qc p hp
      unfold ovSplitAux at hp
      split_ifs at hp with h1 h2 h3 h4 h5 h6
      all_goals
        first
        | (have hq := ih (c :: cur) _ _ _ p hp; simp at hq ⊢; omega)
        | skip
      -- remaining: separator branch
      rcases List.mem_cons.mp hp with h | h
      · subst h
        calc (jsTrim cur.reverse).length ≤ cur.reverse.length := jsTrim_length_le _
          _ = cur.length := List.length_reverse _
          _ ≤ cur.length + (c :: cs).length := by simp
      · have := ih [] _ _ _ p h
        simp at this ⊢
        omega

theorem ovSplitAux_length_lt (sym : Char) :
    ∀ (cs cur : List Char) (d : Int) (q : Bool) (qc : Char),
      2 ≤ (ovSplitAux sym cs cur d q qc).length →
      ∀ p ∈ ovSplitAux sym cs cur d q qc, p.length + 1 ≤ cur.length + cs.length := by
  intro cs
  induction cs with
  | nil =>
      intro cur d q qc hlen p hp
      unfold ovSplitAux at hlen
      split at hlen <;> simp at hlen
  | cons c cs ih =>
      intro cur d q qc hlen p hp
      unfold ovSplitAux at hlen hp
      split_ifs at hlen hp with h1 h2 h3 h4 h5 h6
      all_goals
        first
        | (have hq := ih (c :: cur) _ _ _ hlen p hp; simp at hq ⊢; omega)
        | skip
      -- separator branch: a split happened, so the strict bound is direct
      rcases List.mem_cons.mp hp with h | h
      · subst h
        have : (jsTrim cur.reverse).length ≤ cur.length := by
          calc (jsTrim cur.reverse).length ≤ cur.reverse.length := jsTrim_length_le _
            _ = cur.length := List.length_reverse _
        simp
        omega
      · have := ovSplitAux_length_le sym cs [] d q qc p h
        simp at this ⊢
        omega

theorem ovSplit_length_le (sym : Char) (s : List Char) :
    ∀ p ∈ ovSplit sym s, p.length ≤ s.length := by
  intro p hp
  have := ovSplitAux_length_le sym s [] 0 false ' ' p hp
  simpa using this

theorem ovSplit_length_lt (sym : Char) (s : List Char)
    (h : 2 ≤ (ovSplit sym s).length) :
    ∀ p ∈ ovSplit sym s, p.length < s.length := by
  intro p hp
  have := ovSplitAux_length_lt sym s [] 0 false ' ' h p hp
  simp at this
  omega

theorem isg3go_length_le (r : List Char) :
    ∀ w g, isg3go r w = some g → g.length ≤ r.length := by
  intro w
  induction w with
  | zero =>
      intro g h
      unfold isg3go at h
      split at h
      · injection h with h
        subst h
        rfl
      · exact absurd h (by simp)
  | succ w ih =>
      intro g h
      unfold isg3go at h
      split at h
      · injection h with h
        subst h
        simp
      · exact ih g h

theorem tail_length_le {α : Type} (l : List α) : l.tail.length ≤ l.length := by
  cases l <;> simp

theorem isgAfterBracket_length_le (r : List Char) :
    ∀ g, isgAfterBracket r = some g → g.length ≤ r.length := by
  intro g h
  unfold isgAfterBracket at h
  split_ifs at h
  have h1 : (r.dropWhile isWs).length ≤ r.length := dropWhile_length_le _ _
  have h2 : (r.dropWhile isWs).tail.length ≤ (r.dropWhile isWs).length :=
    tail_length_le _
  have := isg3go_length_le (r.dropWhile isWs).tail _ g h
  omega

theorem isg2go_length_le :
    ∀ (r acc : List Char) (g2 g3 : List Char),
      isg2go r acc = some (g2, g3) →
      g2.length ≤ acc.length + r.length ∧ g3.length ≤ r.length := by
  intro r
  induction r with
  | nil =>
      intro acc g2 g3 h
      exact absurd h (by simp [isg2go])
  | cons c r ih =>
      intro acc g2 g3 h
      unfold isg2go at h
      split_ifs at h with hl hbr
      · cases hab : isgAfterBracket r.tail with
        | some g3x =>
            rw [hab] at h
            injection h with h
            injection h with h1 h2
            subst h1
            subst h2
            have ha := isgAfterBracket_length_le r.tail _ hab
            have ht : r.tail.length ≤ r.length := tail_length_le _
            constructor
            · simp only [List.length_reverse, List.length_cons]
              omega
            · simp only [List.length_cons]
              omega
        | none =>
            rw [hab] at h
            have := ih (c :: acc) g2 g3 h
            simp at this ⊢
            omega
      · have := ih (c :: acc) g2 g3 h
        simp at this ⊢
        omega

theorem isg2ws_length_le (r : List Char) :
    ∀ w g2 g3, isg2ws r w = some (g2, g3) →
      g2.length ≤ r.length ∧ g3.length ≤ r.length := by
  intro w
  induction w with
  | zero =>
      intro g2 g3 h
      unfold isg2ws at h
      have := isg2go_length_le r [] g2 g3 h
      simpa using this
  | succ w ih =>
      intro g2 g3 h
      unfold isg2ws at h
      cases hab : isg2go (r.drop (w + 1)) [] with
      | some res =>
          rw [hab] at h
          injection h with h
          subst h
          have := isg2go_length_le (r.drop (w + 1)) [] g2 g3 hab
          have hd : (r.drop (w + 1)).length = r.length - (w + 1) :=
            List.length_drop _ _
          simp at this
          omega
      | none =>
          rw [hab] at h
          exact ih _ _ h

theorem isg1go_length_le :
    ∀ (r acc : List Char) (g1 g2 g3 : List Char),
      isg1go r acc = some (g1, g2, g3) →
      g2.length ≤ r.length ∧ g3.length ≤ r.length := by
  intro r
  induction r with
  | nil =>
      intro acc g1 g2 g3 h
      exact absurd h (by simp [isg1go])
  | cons c r ih =>
      intro acc g1 g2 g3 h
      unfold isg1go at h
      split_ifs at h with hl hbr
      · cases hab : isg2ws r.tail (r.tail.takeWhile isWs).length with
        | some pr =>
            rw [hab] at h
            cases pr with
            | mk g2x g3x =>
                injection h with h
                injection h with h1 h
                injection h with h2 h3
                subst h2
                subst h3
                have ha := isg2ws_length_le r.tail _ g2x g3x hab
                have ht : r.tail.length ≤ r.length := tail_length_le _
                simp at ha ⊢
                omega
        | none =>
            rw [hab] at h
            have := ih (c :: acc) g1 g2 g3 h
            simp at this ⊢
            omega
      · have := ih (c :: acc) g1 g2 g3 h
        simp at this ⊢
        omega

theorem indexSigMatch_length_le (content : List Char) (g1 g2 g3 : List Char)
    (h : indexSigMatch content = some (g1, g2, g3)) :
    g2.length ≤ content.length ∧ g3.length ≤ content.length := by
  unfold indexSigMatch at h
  split_ifs at h
  have h1 : (content.dropWhile isWs).length ≤ content.length :=
    dropWhile_length_le _ _
  have h2 : (content.dropWhile isWs).tail.length ≤ (content.dropWhile isWs).length :=
    tail_length_le _
  have := isg1go_length_le (content.dropWhile isWs).tail [] g1 g2 g3 h
  omega

theorem startsSeg_length_le :
    ∀ p s : List Char, startsSeg p s = true → p.length ≤ s.length := by
  intro p
  induction p with
  | nil => simp
  | cons a p ih =>
      intro s h
      cases s with
      | nil => simp [startsSeg] at h
      | cons c cs =>
          unfold startsSeg at h
          simp at h
          have := ih cs h.2
          simp
          omega

theorem endsSeg_length_le (p s : List Char) (h : endsSeg p s = true) :
    p.length ≤ s.length := by
  unfold endsSeg at h
  have := startsSeg_length_le p.reverse s.reverse h
  simpa using this

theorem mapMOpt_isSome {A B : Type} (f : A → Option B) :
    ∀ l : List A, (∀ a ∈ l, (f a).isSome) → (mapMOpt f l).isSome := by
  intro l
  induction l with
  | nil => simp [mapMOpt]
  | cons a l ih =>
      intro h
      unfold mapMOpt
      obtain ⟨b, hb⟩ := Option.isSome_iff_exists.mp (h a (by simp))
      have h2 := ih (fun x hx => h x (by simp [hx]))
      obtain ⟨bs, hbs⟩ := Option.isSome_iff_exists.mp h2
      simp [hb, hbs]

theorem buildPropsF_isSome (pf : List Char → Option TypeNode) (B : Nat)
    (hpf : ∀ q : List Char, q.length ≤ B → (pf q).isSome) :
    ∀ (props : List (List Char)) (acc : List (List Char × TypeNode × Bool)),
      (∀ p ∈ props, p.length ≤ B) → (buildPropsF pf props acc).isSome := by
  intro props
  induction props with
  | nil => simp [buildPropsF]
  | cons p ps ih =>
      intro acc hb
      unfold buildPropsF
      cases hci : findPropertyColon p with
      | none =>
          simp only [hci]
          exact ih acc (fun x hx => hb x (by simp [hx]))
      | some ci =>
          simp only [hci]
          split_ifs with hpos
          · have hty : (jsTrim (p.drop (ci + 1))).length ≤ B := by
              have h1 := jsTrim_length_le (p.drop (ci + 1))
              have h2 : (p.drop (ci + 1)).length = p.length - (ci + 1) :=
                List.length_drop _ _
              have h3 := hb p (by simp)
              omega
            obtain ⟨node, hnode⟩ :=
              Option.isSome_iff_exists.mp (hpf _ hty)
            simp only [hnode]
            exact ih _ (fun x hx => hb x (by simp [hx]))
          · exact ih acc (fun x hx => hb x (by simp [hx]))

theorem head?_ne_nil {α : Type} (l : List α) (c : α) (h : l.head? = some c) :
    1 ≤ l.length := by
  cases l with
  | nil => simp at h
  | cons a l => simp

/-- Totality of the `overloader.js` parser: fuel `length + 1` always
suffices, because each rule's recursive inputs are strictly shorter than
the trimmed text (union parts lose at least a separator, the other rules
strip at least the surrounding two characters). -/
theorem ovParseF_total : ∀ (n : Nat) (s : List Char), s.length < n →
    (ovParseF n s).isSome := by
  intro n
  induction n with
  | zero =>
      intro s h
      omega
  | succ n ih =>
      intro s hs
      have htr : (jsTrim s).length ≤ s.length := jsTrim_length_le s
      simp only [ovParseF]
      split_ifs with h1 h2 h3 h4 h5 h6 h7 h8 h9 h10
      all_goals try simp
      · -- union rule: each part is strictly shorter than the trimmed text
        apply mapMOpt_isSome
        intro p hp
        apply ih
        have h1b : (jsTrim s).contains '|' = true ∧
            1 < (ovSplit '|' (jsTrim s)).length := by simpa using h1
        have hlt := ovSplit_length_lt '|' (jsTrim s) (by omega) p hp
        omega
      · -- array suffix with a parenthesized element type
        apply ih
        have hpl : (lc "[]").length = 2 := rfl
        have h2len := endsSeg_length_le (lc "[]") (jsTrim s) h2
        have e1 := dropTail_length 2 (jsTrim s)
        have e2 : (dropTail 2 (jsTrim s)).tail.length =
            (dropTail 2 (jsTrim s)).length - 1 := List.length_tail _
        have e3 := dropTail_length 1 (dropTail 2 (jsTrim s)).tail
        omega
      · -- array suffix, bare element type
        apply ih
        have hpl : (lc "[]").length = 2 := rfl
        have h2len := endsSeg_length_le (lc "[]") (jsTrim s) h2
        have e1 := dropTail_length 2 (jsTrim s)
        omega
      · -- parenthesized group
        apply ih
        have h4b : (jsTrim s).head? = some '(' ∧
            (jsTrim s).getLast? = some ')' := by simpa using h4
        have hne := head?_ne_nil _ _ h4b.1
        have e2 : (jsTrim s).tail.length = (jsTrim s).length - 1 :=
          List.length_tail _
        have e3 := dropTail_length 1 (jsTrim s).tail
        omega
      · -- heterogeneous bracketed array
        apply mapMOpt_isSome
        intro p hp
        apply ih
        have h5b : (jsTrim s).head? = some '[' ∧
            (jsTrim s).getLast? = some ']' := by simpa using h5
        have hne := head?_ne_nil _ _ h5b.1
        have e2 : (jsTrim s).tail.length = (jsTrim s).length - 1 :=
          List.length_tail _
        have e3 := dropTail_length 1 (jsTrim s).tail
        have := ovSplit_length_le ',' (dropTail 1 (jsTrim s).tail) p hp
        omega
      · -- object rule
        have h7b : (jsTrim s).head? = some braceL ∧
            (jsTrim s).getLast? = some braceR := by simpa using h7
        have hne := head?_ne_nil _ _ h7b.1
        have e2 : (jsTrim s).tail.length = (jsTrim s).length - 1 :=
          List.length_tail _
        have e3 := dropTail_length 1 (jsTrim s).tail
        cases hsig : indexSigMatch (dropTail 1 (jsTrim s).tail) with
        | some g =>
            obtain ⟨g1, g2, g3⟩ := g
            have hlen := indexSigMatch_length_le _ g1 g2 g3 hsig
            obtain ⟨kt, hkt⟩ := Option.isSome_iff_exists.mp
              (ih (jsTrim g2) (by have := jsTrim_length_le g2; omega))
            obtain ⟨vt, hvt⟩ := Option.isSome_iff_exists.mp
              (ih (jsTrim g3) (by have := jsTrim_length_le g3; omega))
            simp [hsig, hkt, hvt]
        | none =>
            have hb := buildPropsF_isSome (ovParseF n) ((jsTrim s).length - 2)
              (fun q hq => ih q (by omega))
              (ovSplit ',' (dropTail 1 (jsTrim s).tail)) []
              (fun p hp => by
                have := ovSplit_length_le ',' (dropTail 1 (jsTrim s).tail) p hp
                omega)
            obtain ⟨props, hp2⟩ := Option.isSome_iff_exists.mp hb
            simp [hsig, hp2]

theorem assocGet_assocSet {α : Type} (k : List Char) (v : α) :
    ∀ l : List (List Char × α), assocGet k (assocSet k v l) = some v := by
  intro l
  induction l with
  | nil => simp [assocGet, assocSet]
  | cons p rest ih =>
      obtain ⟨k2, w⟩ := p
      unfold assocSet
      split_ifs with h
      · simp [assocGet, h]
      · simp [assocGet, h, ih]

theorem assocSet_assocSet {α : Type} (k : List Char) (f g : α) :
    ∀ l : List (List Char × α), assocSet k g (assocSet k f l) = assocSet k g l := by
  intro l
  induction l with
  | nil => simp [assocSet]
  | cons p rest ih =>
      obtain ⟨k2, w⟩ := p
      unfold assocSet
      split_ifs with h
      · simp [assocSet, h]
      · simp [assocSet, h, ih]

theorem ovMatchNodeF_undef_val :
    ∀ (n : Nat) (t : TypeNode), (ovMatchNodeF n .undef t).2.1 = .undef := by
  intro n
  induction n with
  | zero =>
      intro t
      rfl
  | succ n ih =>
      have haux : ∀ ms : List TypeNode,
          (ovSome (ovMatchNodeF n) JSValue.undef ms).2.1 = JSValue.undef := by
        intro ms
        induction ms with
        | nil => rfl
        | cons m rest ihm =>
            unfold ovSome
            rcases hr : ovMatchNodeF n JSValue.undef m with ⟨b, v2, m2⟩
            have hv := ih m
            rw [hr] at hv
            simp at hv
            subst hv
            cases b
            · simp only []
              rcases hr2 : ovSome (ovMatchNodeF n) JSValue.undef rest with ⟨b2, v3, r2⟩
              have := ihm
              rw [hr2] at this
              simpa using this
            · rfl
      intro t
      cases t with
      | union ms =>
          unfold ovMatchNodeF
          simpa using haux ms
      | arrHomo et => rfl
      | arrHetero ets => rfl
      | literalArray vals => rfl
      | object props => rfl
      | objectIndex kt vt => rfl
      | literal lv => rfl
      | primitive ty opt => rfl

theorem ovMatchNodeF_empty_push (n : Nat) (et : TypeNode) :
    (ovMatchNodeF (n + 1) (.arr []) (.arrHomo et)).2.1 = .arr [.undef] := by
  unfold ovMatchNodeF
  simp only [List.isEmpty_nil, if_true]
  unfold ovElems
  rcases hr : ovMatchNodeF n JSValue.undef et with ⟨b, e2, et2⟩
  have hv := ovMatchNodeF_undef_val n et
  rw [hr] at hv
  simp at hv
  subst hv
  cases b
  · rfl
  · rfl

theorem ovMatchNodeF_empty_matches_undef (n : Nat) (et : TypeNode) :
    (ovMatchNodeF (n + 1) (.arr []) (.arrHomo et)).1 =
      (ovMatchNodeF n .undef et).1 := by
  rcases hr : ovMatchNodeF n JSValue.undef et with ⟨b, e2, et2⟩
  unfold ovMatchNodeF
  simp only [List.isEmpty_nil, if_true]
  unfold ovElems
  rw [hr]
  cases b
  · rfl
  · rfl

theorem perm_three {α : Type} (x y z a b c : α)
    (hp : List.Perm [x, y, z] [a, b, c]) :
    ([x, y, z] = [a, b, c] ∨ [x, y, z] = [a, c, b] ∨
     [x, y, z] = [b, a, c] ∨ [x, y, z] = [b, c, a] ∨
     [x, y, z] = [c, a, b] ∨ [x, y, z] = [c, b, a]) := by
  have hx : x ∈ [a, b, c] := hp.mem_iff.mp (by simp)
  simp at hx
  rcases hx with hx | hx | hx
  · subst hx
    have h2 : List.Perm [y, z] [b, c] := hp.cons_inv
    have hy : y ∈ [b, c] := h2.mem_iff.mp (by simp)
    simp at hy
    rcases hy with hy | hy
    · subst hy
      have h3 : List.Perm [z] [c] := h2.cons_inv
      have := List.perm_singleton.mp h3
      simp at this
      subst this
      simp
    · subst hy
      have h2b : List.Perm [y, z] [y, b] := h2.trans (List.Perm.swap y b [])
      have h3 : List.Perm [z] [b] := h2b.cons_inv
      have := List.perm_singleton.mp h3
      simp at this
      subst this
      simp
  · subst hx
    have hrot : List.Perm [a, x, c] [x, a, c] := List.Perm.swap x a [c]
    have h2 : List.Perm [y, z] [a, c] := (hp.trans hrot).cons_inv
    have hy : y ∈ [a, c] := h2.mem_iff.mp (by simp)
    simp at hy
    rcases hy with hy | hy
    · subst hy
      have h3 : List.Perm [z] [c] := h2.cons_inv
      have := List.perm_singleton.mp h3
      simp at this
      subst this
      simp
    · subst hy
      have h2b : List.Perm [y, z] [y, a] := h2.trans (List.Perm.swap y a [])
      have h3 : List.Perm [z] [a] := h2b.cons_inv
      have := List.perm_singleton.mp h3
      simp at this
      subst this
      simp
  · subst hx
    have hrot1 : List.Perm [a, b, x] [a, x, b] :=
      List.Perm.cons a (List.Perm.swap x b [])
    have hrot2 : List.Perm [a, x, b] [x, a, b] := List.Perm.swap x a [b]
    have h2 : List.Perm [y, z] [a, b] := ((hp.trans hrot1).trans hrot2).cons_inv
    have hy : y ∈ [a, b] := h2.mem_iff.mp (by simp)
    simp at hy
    rcases hy with hy | hy
    · subst hy
      have h3 : List.Perm [z] [b] := h2.cons_inv
      have := List.perm_singleton.mp h3
      simp at this
      subst this
      simp
    · subst hy
      have h2b : List.Perm [y, z] [y, a] := h2.trans (List.Perm.swap y a [])
      have h3 : List.Perm [z] [a] := h2b.cons_inv
      have := List.perm_singleton.mp h3
      simp at this
      subst this
      simp

theorem tpSigLoop_ok_iff :
    ∀ l : List (JSValue × List Char),
      tpSigLoop l = .ok true ↔ ∀ x ∈ l, tpMatchesType x.1 x.2 = .ok true := by
  intro l
  induction l with
  | nil => simp [tpSigLoop]
  | cons ap rest ih =>
      obtain ⟨a, p⟩ := ap
      unfold tpSigLoop
      cases hm : tpMatchesType a p with
      | error e =>
          simp only [hm]
          constructor
          · intro h
            simp at h
          · intro h
            have := h (a, p) (by simp)
            rw [hm] at this
            simp at this
      | ok b =>
          cases b
          · simp only [hm]
            constructor
            · intro h
              simp at h
            · intro h
              have := h (a, p) (by simp)
              rw [hm] at this
              simp at this
          · simp only [hm, if_true]
            constructor
            · intro h
              intro x hx
              rcases List.mem_cons.mp hx with hx | hx
              · subst hx
                exact hm
              · exact (ih.mp h) x hx
            · intro h
              exact ih.mpr (fun x hx => h x (by simp [hx]))

/-- C1 (counterexample): in the `overloader.js` dispatcher the wildcard is
tested at its registration position (`signature === "any" || ...`), so
after `add("any", f3)`, `add("number","number", f1)`,
`add("string","number", f2)` — the claim's scenario in a registration
order the claim explicitly covers — calling with `(1, 2)` invokes `f3`,
not `f1` as the claim requires. -/
theorem c1_ov_any_positional :
    ovCall (ovAdd (ovAdd (ovAdd [] [lc "any"] .f3)
        [lc "number", lc "number"] .f1) [lc "string", lc "number"] .f2)
      [.num 1, .num 2] = .ok (.f3, [.num 1, .num 2]) ∧ Fn.f3 ≠ Fn.f1 :=
  ⟨rfl, by decide⟩

/-- C1 (amended): in the TaskProcessor.js dispatcher the claim holds — for
every registration order of `add("number","number",f1)`,
`add("string","number",f2)`, `add("any",f3)`, calling with `(1,2)` invokes
`f1`, with `("x",2)` invokes `f2`, and with `("x","y")` invokes the
deferred `"any"` fallback `f3`; in the `overloader.js` dispatcher the
`"any"` entry is instead tested at its registration position and can
pre-empt later, more specific registrations. -/
theorem c1_tp_deferred_any :
    ∀ l : List (List (List Char) × Fn), List.Perm l c1Steps →
      tpCall (applyAdds l) [.num 1, .num 2] = .ok (.f1, [.num 1, .num 2]) ∧
      tpCall (applyAdds l) [.str (lc "x"), .num 2] =
        .ok (.f2, [.str (lc "x"), .num 2]) ∧
      tpCall (applyAdds l) [.str (lc "x"), .str (lc "y")] =
        .ok (.f3, [.str (lc "x"), .str (lc "y")]) := by
  intro l hp
  have h3 := hp.length_eq
  simp [c1Steps] at h3
  obtain ⟨x, y, z, rfl⟩ : ∃ x y z, l = [x, y, z] := by
    cases l with
    | nil => simp at h3
    | cons x l1 =>
        cases l1 with
        | nil => simp at h3
        | cons y l2 =>
            cases l2 with
            | nil => simp at h3
            | cons z l3 =>
                cases l3 with
                | nil => exact ⟨x, y, z, rfl⟩
                | cons w l4 => simp at h3
  have h6 := perm_three x y z _ _ _ hp
  rcases h6 with h | h | h | h | h | h
  all_goals rw [h]
  all_goals exact ⟨rfl, rfl, rfl⟩

/-- C1 (witness): the amended theorem applied at the claim's own
registration order. -/
theorem c1_tp_deferred_any_witness :
    tpCall (applyAdds c1Steps) [.num 1, .num 2] = .ok (.f1, [.num 1, .num 2]) :=
  (c1_tp_deferred_any c1Steps (List.Perm.refl _)).1

/-- C2 (counterexample): the `overloader.js` registry is a `Set` of fresh
`[key, fn]` pairs, so re-registering `"number"` accumulates a duplicate
and the first (earlier) entry keeps winning: after `add("number", f1)`,
`add("number", f4)`, a call with one number invokes `f1`, not `f4`. -/
theorem c2_ov_first_wins :
    ovCall (ovAdd (ovAdd [] [lc "number"] .f1) [lc "number"] .f4) [.num 5] =
      .ok (.f1, [.num 5]) ∧ Fn.f1 ≠ Fn.f4 :=
  ⟨rfl, by decide⟩

/-- C2 (amended): last-write-wins re-registration holds for the
TaskProcessor.js dispatcher, whose signatures object overwrites the entry
at an identical key: adding twice under one key equals adding the last
implementation once, and the claim's scenario invokes `f4`; in the
`overloader.js` dispatcher duplicate registrations accumulate and the
earliest matching entry wins instead. -/
theorem c2_tp_last_write_wins :
    (∀ (r : Registry) (ps : List (List Char)) (f g : Fn),
        tpAdd (tpAdd r ps f) ps g = tpAdd r ps g) ∧
    tpCall (tpAdd (tpAdd [] [lc "number"] .f1) [lc "number"] .f4) [.num 5] =
      .ok (.f4, [.num 5]) := by
  constructor
  · intro r ps f g
    unfold tpAdd
    exact assocSet_assocSet _ _ _ r
  · rfl

/-- C3 (counterexample): the claimed "empty array matches T[] iff T itself
denotes array or any" fails in both variants.  In the TaskProcessor.js
matcher the acceptance test is the substring regex `/array|any/` on the
raw element-type text, so the element name `canyon` — which denotes
neither `array` nor `any` — accepts the empty array; in the
`overloader.js` matcher the pushed `undefined` placeholder makes the
empty array match `undefined[]`, whose element type also denotes
neither. -/
theorem c3_canyon_matches_empty :
    tpMatchesType (.arr []) (lc "canyon[]") = .ok true ∧
    lc "canyon" ≠ lc "array" ∧ lc "canyon" ≠ lc "any" ∧
    (ovMatchesType [] (.arr []) (lc "undefined[]")).1 = true ∧
    lc "undefined" ≠ lc "array" ∧ lc "undefined" ≠ lc "any" :=
  ⟨rfl, by decide, by decide, rfl, by decide, by decide⟩

/-- C3 (amended): the two variants decide empty-array acceptance
differently, and neither is "iff the element type denotes array or any".
In the TaskProcessor.js matcher the empty array matches a homogeneous
array node exactly when `/array|any/` tests true on the element node's
`type` text (the text itself for a primitive element node, the string
`"undefined"` for any other node kind).  In the `overloader.js` matcher
the empty array is first extended with a pushed `undefined` placeholder,
so it matches exactly when `undefined` matches the element node — there
`[]` matches `undefined[]` but not `array[]` or `canyon[]`.  In both
variants `matchesType([], "string[]")` is `false` and
`matchesType([], "any[]")` is `true`, as the claim's instances state. -/
theorem c3_empty_array_substring_test :
    (∀ (n : Nat) (e : TypeNode),
        tpMatchNodeF (n + 1) (.arr []) (.arrHomo e) =
          .ok (arrayAnyTest (typeFieldStr e))) ∧
    (∀ (n : Nat) (et : TypeNode),
        (ovMatchNodeF (n + 1) (.arr []) (.arrHomo et)).1 =
          (ovMatchNodeF n .undef et).1) ∧
    tpMatchesType (.arr []) (lc "string[]") = .ok false ∧
    tpMatchesType (.arr []) (lc "any[]") = .ok true ∧
    (ovMatchesType [] (.arr []) (lc "string[]")).1 = false ∧
    (ovMatchesType [] (.arr []) (lc "any[]")).1 = true ∧
    (ovMatchesType [] (.arr []) (lc "undefined[]")).1 = true ∧
    (ovMatchesType [] (.arr []) (lc "canyon[]")).1 = false ∧
    (ovMatchesType [] (.arr []) (lc "array[]")).1 = false := by
  refine ⟨?_, fun n et => ovMatchNodeF_empty_matches_undef n et,
    rfl, rfl, rfl, rfl, rfl, rfl, rfl⟩
  intro n e
  unfold tpMatchNodeF
  cases h : arrayAnyTest (typeFieldStr e)
  · simp [h]
  · simp [h, tpAllElems]

/-- C4 (code bug): testing the empty array against the heterogeneous
pattern `[number,string]` does not return the boolean `false` — the
TaskProcessor.js matcher reads `typeInfo.elementType.type` while
`elementType` is undefined on a heterogeneous node, raising `TypeError`
instead of reporting a boolean no-match. -/
theorem c4_empty_vs_hetero_throws :
    tpMatchesType (.arr []) (lc "[number,string]") = .error .typeError := rfl

/-- C5 (counterexample): `overloader.js` matching mutates its argument —
after `matchesType([], "string[]")` the empty array has been extended
with a pushed `undefined`, so its length is 1, not 0 as the claim
requires. -/
theorem c5_ov_mutates_argument :
    (ovMatchesType [] (.arr []) (lc "string[]")).2.1 = .arr [.undef] ∧
    JSValue.arr [JSValue.undef] ≠ JSValue.arr [] :=
  ⟨rfl, by simp⟩

/-- C5 (amended): the TaskProcessor.js matcher is pure (its embedding
returns only a result), but in `overloader.js` matching an empty array
against any homogeneous array node leaves the array as `[undefined]`
(length 1), and matching an optional primitive rewrites the cached node's
`type` text in place (`string?` becomes `string|undefined` in the
cache); beyond these, the engine writes state only through cache
insertion and registry update. -/
theorem c5_ov_mutations :
    (∀ (n : Nat) (et : TypeNode),
        (ovMatchNodeF (n + 1) (.arr []) (.arrHomo et)).2.1 = .arr [.undef]) ∧
    (ovMatchesType [] .undef (lc "string?")).1 = true ∧
    (ovMatchesType [] .undef (lc "string?")).2.2 =
      [(lc "string?", .primitive (lc "string|undefined") true)] :=
  ⟨fun n et => ovMatchNodeF_empty_push n et, rfl, rfl⟩

/-- C6: the `overloader.js` parser is total and memoized — fuel
`length + 1` always returns a tree (never raises), when no structural
rule matches the result is the primitive fallback wrapping the raw
trimmed text, and two consecutive cached parses of the identical string
return the identical tree. -/
theorem c6_parser_total_memoized :
    ∀ s : List Char,
      (ovParseF (s.length + 1) s).isSome = true ∧
      (ovNoStructRule s = true →
        ovParse s = .primitive (jsTrim s)
          (decide ((jsTrim s).getLast? = some '?'))) ∧
      (∀ c : Cache,
        (ovCachedParse ((ovCachedParse c s).2) s).1 = (ovCachedParse c s).1) := by
  intro s
  refine ⟨ovParseF_total (s.length + 1) s (by omega), ?_, ?_⟩
  · intro h
    simp [ovNoStructRule] at h
    unfold ovParse
    simp only [ovParseF]
    split_ifs
    all_goals try simp_all
    all_goals
      exfalso
      omega
  · intro c
    unfold ovCachedParse
    cases hg : assocGet s c with
    | some t => simp [hg]
    | none => simp [hg, assocGet_assocSet]

/-- C6 (witness): the theorem applied to the unknown type name `foo`,
whose parse is the primitive fallback. -/
theorem c6_parser_total_memoized_witness :
    ovParse (lc "foo") = .primitive (lc "foo") false :=
  (c6_parser_total_memoized (lc "foo")).2.1 (by rfl)

/-- C7: `matchesSignature` rejects immediately with the boolean `false`
when the argument count is below the number of `?`-free patterns or
above the pattern count, and otherwise succeeds exactly when every
argument matches the pattern at its position (positional pairs given by
`zip`). -/
theorem c7_matches_signature_arity :
    ∀ (args : List JSValue) (pats : List (List Char)),
      ((args.length < requiredCount pats ∨ pats.length < args.length) →
        tpMatchesSignature args pats = .ok false) ∧
      (tpMatchesSignature args pats = .ok true ↔
        (requiredCount pats ≤ args.length ∧ args.length ≤ pats.length ∧
          ∀ x ∈ args.zip pats, tpMatchesType x.1 x.2 = .ok true)) := by
  intro args pats
  constructor
  · intro h
    unfold tpMatchesSignature
    split_ifs with ha hb
    · rfl
    · rfl
    · exfalso
      omega
  · unfold tpMatchesSignature
    split_ifs with ha hb
    · constructor
      · intro h
        simp at h
      · rintro ⟨hr, -, -⟩
        exfalso
        omega
    · constructor
      · intro h
        simp at h
      · rintro ⟨-, hr, -⟩
        exfalso
        omega
    · rw [tpSigLoop_ok_iff]
      constructor
      · intro h
        exact ⟨by omega, by omega, h⟩
      · rintro ⟨-, -, h⟩
        exact h

/-- C7 (witness): with the registered signature `("number", "number?")`, a
single numeric argument passes the signature match and zero arguments
fail it. -/
theorem c7_matches_signature_arity_witness :
    tpMatchesSignature [.num 5] [lc "number", lc "number?"] = .ok true ∧
    tpMatchesSignature [] [lc "number", lc "number?"] = .ok false := by
  constructor
  · refine (c7_matches_signature_arity [.num 5] [lc "number", lc "number?"]).2.mpr
      ⟨by decide, by decide, ?_⟩
    intro x hx
    simp at hx
    subst hx
    rfl
  · exact (c7_matches_signature_arity [] [lc "number", lc "number?"]).1
      (Or.inl (by decide))

/-- C8 (code bug): with `[number,string]` and an `"any"` fallback both
registered, calling the TaskProcessor.js dispatcher with a single empty
array raises `TypeError` out of the matcher, even though an `"any"` entry
is registered — so the no-matching-signature error is not the sole
exception surfaced, and an error escapes despite the fallback. -/
theorem c8_typeerror_despite_any :
    tpCall (tpAdd (tpAdd [] [lc "[number,string]"] .fA) [lc "any"] .fB)
      [.arr []] = .error .typeError ∧
    assocGet (lc "any")
      (tpAdd (tpAdd [] [lc "[number,string]"] .fA) [lc "any"] .fB) = some .fB :=
  ⟨rfl, rfl⟩

/-- C9: `matchesType(v, "any")` is true for every value — `null`,
`undefined`, functions, arrays, records and scalars — in both variants,
and the `overloader.js` matcher leaves the value unchanged. -/
theorem c9_any_matches_everything :
    ∀ v : JSValue,
      tpMatchesType v (lc "any") = .ok true ∧
      (ovMatchesType [] v (lc "any")).1 = true ∧
      (ovMatchesType [] v (lc "any")).2.1 = v := by
  have hpm : ∀ x : List Char,
      primMatches x (primNewType (lc "any") false) = true := by
    intro x
    unfold primMatches
    rw [show (splitPlain '|' (primNewType (lc "any") false) []).contains
      (lc "any") = true from rfl]
    simp
  intro v
  have htp : tpMatchesType v (lc "any") =
      .ok (primMatches (myTypeofTP v) (primNewType (lc "any") false)) := rfl
  have hov : ovMatchesType [] v (lc "any") =
      (primMatches (myTypeofOV v) (primNewType (lc "any") false), v,
        [(lc "any", .primitive (primNewType (lc "any") false) false)]) := rfl
  refine ⟨?_, ?_, ?_⟩
  · rw [htp]
    rw [hpm]
  · rw [hov]
    exact hpm (myTypeofOV v)
  · rw [hov]

/-- C10: a parameter counts as optional whenever its pattern text contains
`?` anywhere — any such single-pattern signature accepts zero arguments,
and with the registered signature `(lc "\x7ba?:number\x7d")` (the `?`
marks an optional property inside the object shape) a call with no
arguments passes the arity check and invokes the implementation with no
arguments. -/
theorem c10_optional_marker_anywhere :
    (∀ p : List Char, p.contains '?' = true →
        tpMatchesSignature [] [p] = .ok true) ∧
    tpCall (tpAdd [] [lc "\x7ba?:number\x7d"] .fC) [] = .ok (.fC, []) := by
  constructor
  · intro p h
    have hr : requiredCount [p] = 0 := by
      have h2 : '?' ∈ p := by simpa using h
      unfold requiredCount
      simp [h2]
    unfold tpMatchesSignature
    rw [hr]
    simp [tpSigLoop]
  · rfl

/-- C10 (witness): the object-shape pattern with an optional property
passes the zero-argument arity check. -/
theorem c10_optional_marker_anywhere_witness :
    tpMatchesSignature [] [lc "\x7ba?:number\x7d"] = .ok true :=
  c10_optional_marker_anywhere.1 (lc "\x7ba?:number\x7d") (by rfl)
